import Mathlib

/-!
Shallow embedding of the process and swap subsystem of the xv6-os repository
(`proc.c`, `sysproc.c`), together with theorems checking the specification's
claims about it.  Machine integers of the C code are modelled as `Nat`
(all the quantities involved are non-negative and no overflow is reachable
in the modelled paths); process pointers are modelled as slot indices into
the process-table list; fallible operations return `Option` or a sentinel
as the C code does.
-/

/-! ## Parameters (param.h) and page-table flag bits (mmu.h) -/

def NPROC : Nat := 64

def NOFILE : Nat := 16

def PGSIZE : Nat := 4096

def PTE_P : Nat := 1

def PTE_U : Nat := 4

/-! ## Process state and process slot (proc.h) -/

inductive PState where
  | UNUSED
  | EMBRYO
  | SLEEPING
  | RUNNABLE
  | RUNNING
  | ZOMBIE
deriving DecidableEq, Repr

/-- One slot of `ptable.proc`.  `pgdir` maps a page-aligned user virtual
address to its page-table entry (`getpte`); `parent` is the slot index of
the parent; `name0` is `name[0]`; a fresh slot is all zeroes, as the C
global array is. -/
structure Proc where
  state : PState := .UNUSED
  pid : Nat := 0
  parent : Nat := 0
  sz : Nat := 0
  pgdir : Nat → Nat := fun _ => 0
  kstack : Nat := 0
  chan : Nat := 0
  killed : Nat := 0
  name0 : Nat := 0
  ctime : Nat := 0
  retime : Nat := 0
  rutime : Nat := 0
  stime : Nat := 0
  priority : Nat := 0
  ticks_elapsed : Nat := 0
  satisfied : Nat := 0
  trapva : Nat := 0

instance : Inhabited Proc := ⟨{}⟩

/-! ## C1: allocproc's found/failure paths and the reap paths of wait/waitstats -/

/-- The `found:` block of `allocproc` (proc.c): mark `EMBRYO`, assign the next
pid, seed priority and the accounting fields. `npid` is the value read from
`nextpid`, `t` the current `ticks`. -/
def allocprocInit (p : Proc) (npid t : Nat) : Proc :=
  { p with state := .EMBRYO, pid := npid, priority := 2, ctime := t,
           retime := 0, rutime := 0, stime := 0 }

/-- The kernel-stack-allocation failure path of `allocproc`:
`p->kstack = kalloc()` stored 0 and the state reverts to `UNUSED`.
No other field is touched. -/
def allocprocKstackFail (p : Proc) : Proc :=
  { p with kstack := 0, state := .UNUSED }

/-- The reap block of `wait` (proc.c) on a `ZOMBIE` child: free kstack,
clear pid/parent/name[0]/killed, set `UNUSED`.  (`freevm(p->pgdir)` frees
the address space but does not clear the `pgdir` field.) -/
def waitReap (p : Proc) : Proc :=
  { p with kstack := 0, pid := 0, parent := 0, name0 := 0, killed := 0,
           state := .UNUSED }

/-- The reap block of `waitstats` (proc.c): like `wait` but additionally
zeroes the accounting fields and the priority. -/
def waitstatsReap (p : Proc) : Proc :=
  { p with kstack := 0, state := .UNUSED, pid := 0, parent := 0, name0 := 0,
           killed := 0, ctime := 0, retime := 0, rutime := 0, stime := 0,
           priority := 0 }

/-- The claimed per-slot invariant: `pid = 0 ⇔ state = Unused`. -/
def pidUnusedInv (p : Proc) : Prop := p.pid = 0 ↔ p.state = .UNUSED

/-! ## C4: kill -/

/-- The update `kill` applies to the matching slot: set `killed = 1` and
force a `SLEEPING` slot to `RUNNABLE`. -/
def killUpd (p : Proc) : Proc :=
  { p with killed := 1,
           state := if p.state = .SLEEPING then .RUNNABLE else p.state }

/-- `kill(pid)` (proc.c): scan the table for the first slot whose `pid`
field equals the argument; update it and return 0, or return -1 with the
table unchanged when no slot matches.  The slot's state is not examined
when matching. -/
def kill : List Proc → Nat → Int × List Proc
  | [], _ => (-1, [])
  | p :: rest, pid =>
      if p.pid = pid then (0, killUpd p :: rest)
      else
        let r := kill rest pid
        (r.1, p :: r.2)

/-! ## C8: set_prio and dec_prio -/

/-- `set_prio(priority)` (proc.c): reject arguments outside 1..3 with
return value 1; otherwise store the priority into the calling process's
slot and return 0.  `cur` is the caller's current priority; the result
pairs the return value with the caller's priority afterwards. -/
def set_prio (cur : Nat) (priority : Int) : Int × Nat :=
  if priority < 1 ∨ priority > 3 then (1, cur)
  else (0, priority.toNat)

/-- `dec_prio` (proc.c): `priority == 1 ? 1 : priority - 1`. -/
def dec_prio (cur : Nat) : Nat := if cur = 1 then 1 else cur - 1

/-! # Theorems -/

/-! ## C1 -/

/-- C1 counterexample: the claim "`pid = 0` iff `state = Unused` is
preserved by every operation, including allocproc's revert-to-Unused path,
and reaped slots are fully zeroed" is false on the code: starting from a
fresh all-zero slot (which satisfies the invariant), running `allocproc`'s
found-block with `nextpid = 1` and then its kernel-stack-failure revert
leaves `state = UNUSED` with `pid = 1 ≠ 0`; moreover `wait`'s reap of a
zombie whose `ctime` is 7 leaves `ctime = 7`, so the reaped slot is not
fully zeroed. -/
theorem c1_pid_unused_cx :
    pidUnusedInv ({} : Proc) ∧
    ¬ pidUnusedInv (allocprocKstackFail (allocprocInit ({} : Proc) 1 0)) ∧
    (waitReap { state := .ZOMBIE, pid := 9, ctime := 7 }).ctime = 7 := by
  refine ⟨by simp [pidUnusedInv], ?_, rfl⟩
  simp [pidUnusedInv, allocprocKstackFail, allocprocInit]

/-- C1 (amended): the reaps of `wait` and `waitstats` do establish
`pid = 0` together with `state = UNUSED` and zero kstack, parent, name and
killed — `waitstats` additionally zeroes the accounting fields and the
priority, while `wait` leaves them and both leave `sz` — but `allocproc`'s
revert-to-Unused path on kernel-stack allocation failure keeps the freshly
assigned nonzero pid, so it does not preserve `pid = 0 ⇔ state = Unused`. -/
theorem c1_reap_and_allocproc_fail (p : Proc) (npid t : Nat) (h : 1 ≤ npid) :
    (pidUnusedInv (waitReap p) ∧ (waitReap p).pid = 0 ∧
      (waitReap p).state = .UNUSED ∧ (waitReap p).kstack = 0 ∧
      (waitReap p).parent = 0 ∧ (waitReap p).name0 = 0 ∧
      (waitReap p).killed = 0 ∧ (waitReap p).ctime = p.ctime ∧
      (waitReap p).retime = p.retime ∧ (waitReap p).rutime = p.rutime ∧
      (waitReap p).stime = p.stime ∧ (waitReap p).priority = p.priority ∧
      (waitReap p).sz = p.sz) ∧
    (pidUnusedInv (waitstatsReap p) ∧ (waitstatsReap p).pid = 0 ∧
      (waitstatsReap p).state = .UNUSED ∧ (waitstatsReap p).ctime = 0 ∧
      (waitstatsReap p).retime = 0 ∧ (waitstatsReap p).rutime = 0 ∧
      (waitstatsReap p).stime = 0 ∧ (waitstatsReap p).priority = 0 ∧
      (waitstatsReap p).sz = p.sz) ∧
    ((allocprocKstackFail (allocprocInit p npid t)).state = .UNUSED ∧
      (allocprocKstackFail (allocprocInit p npid t)).pid = npid ∧
      ¬ pidUnusedInv (allocprocKstackFail (allocprocInit p npid t))) := by
  refine ⟨⟨?_, rfl, rfl, rfl, rfl, rfl, rfl, rfl, rfl, rfl, rfl, rfl, rfl⟩,
          ⟨?_, rfl, rfl, rfl, rfl, rfl, rfl, rfl, rfl⟩,
          ⟨rfl, rfl, ?_⟩⟩
  · simp [pidUnusedInv, waitReap]
  · simp [pidUnusedInv, waitstatsReap]
  · simp [pidUnusedInv, allocprocKstackFail, allocprocInit]
    omega

/-- C1 amended-claim witness at a concrete input. -/
theorem c1_reap_and_allocproc_fail_witness :
    (1 ≤ 5) ∧
    ((allocprocKstackFail (allocprocInit ({} : Proc) 5 3)).pid = 5 ∧
      ¬ pidUnusedInv (allocprocKstackFail (allocprocInit ({} : Proc) 5 3))) :=
  ⟨by decide,
    ⟨(c1_reap_and_allocproc_fail ({} : Proc) 5 3 (by decide)).2.2.2.1,
     (c1_reap_and_allocproc_fail ({} : Proc) 5 3 (by decide)).2.2.2.2⟩⟩

/-! ## C4 -/

/-- C4 counterexample: `kill(0)` does not return -1 on a table containing
an `UNUSED` slot (whose `pid` field is 0, as for every fresh slot): it
matches that slot, marks it killed and returns 0. -/
theorem c4_kill_zero_cx :
    (kill [({} : Proc)] 0).1 = 0 ∧
    (((kill [({} : Proc)] 0).2.getD 0 default).killed = 1 ∧
      ((kill [({} : Proc)] 0).2.getD 0 default).state = .UNUSED) := by
  refine ⟨rfl, rfl, rfl⟩

/-- C4 (amended): `kill(pid)` updates the first slot whose `pid` field
equals the argument — regardless of that slot's state — setting
`killed = 1` and forcing it from `Sleeping` to `Runnable`, and returns 0;
it returns -1 with the table unchanged exactly when no slot's `pid` field
equals the argument.  Since `Unused` slots carry `pid = 0`, `kill(0)`
succeeds whenever such a slot exists, instead of returning -1. -/
theorem c4_kill_spec (pid : Nat) :
    (∀ m : Proc, (killUpd m).killed = 1 ∧
      (m.state = .SLEEPING → (killUpd m).state = .RUNNABLE) ∧
      (m.state ≠ .SLEEPING → (killUpd m).state = m.state)) ∧
    (∀ tab : List Proc, (∀ p ∈ tab, p.pid ≠ pid) → kill tab pid = (-1, tab)) ∧
    (∀ (l1 : List Proc) (m : Proc) (l2 : List Proc),
      (∀ p ∈ l1, p.pid ≠ pid) → m.pid = pid →
      kill (l1 ++ m :: l2) pid = (0, l1 ++ killUpd m :: l2)) := by
  refine ⟨?_, ?_, ?_⟩
  · intro m
    refine ⟨rfl, ?_, ?_⟩ <;> intro hm <;> simp [killUpd, hm]
  · intro tab
    induction tab with
    | nil => intro _; rfl
    | cons p rest ih =>
        intro hall
        have hp : p.pid ≠ pid := hall p (List.mem_cons_self _ _)
        have hrest := ih (fun q hq => hall q (List.mem_cons_of_mem _ hq))
        simp [kill, hp, hrest]
  · intro l1 m l2
    induction l1 with
    | nil =>
        intro _ hm
        simp [kill, hm]
    | cons p rest ih =>
        intro hall hm
        have hp : p.pid ≠ pid := hall p (List.mem_cons_self _ _)
        have hrest := ih (fun q hq => hall q (List.mem_cons_of_mem _ hq)) hm
        simp [kill, hp, hrest]

/-- C4 amended-claim witness: killing pid 3 on a table whose only slot is a
sleeping process with pid 3 returns 0 and leaves the slot runnable and
killed. -/
theorem c4_kill_spec_witness :
    ({ pid := 3, state := .SLEEPING : Proc }).pid = 3 ∧
    kill [{ pid := 3, state := .SLEEPING : Proc }] 3 =
      (0, [killUpd { pid := 3, state := .SLEEPING : Proc }]) :=
  ⟨rfl, (c4_kill_spec 3).2.2 [] { pid := 3, state := .SLEEPING } []
    (by intro p hp; cases hp) rfl⟩

/-! ## C8 -/

/-- C8: `set_prio(p)` accepts exactly p ∈ {1,2,3} — storing the new
priority and returning 0 — and returns 1 leaving the priority unchanged
otherwise; `dec_prio` lowers the priority by one but never below 1. -/
theorem c8_prio_spec (cur : Nat) (p : Int) (hc : 1 ≤ cur) :
    (1 ≤ p ∧ p ≤ 3 → set_prio cur p = (0, p.toNat)) ∧
    (p < 1 ∨ 3 < p → set_prio cur p = (1, cur)) ∧
    1 ≤ dec_prio cur ∧
    (cur = 1 → dec_prio cur = 1) ∧
    (2 ≤ cur → dec_prio cur = cur - 1) := by
  refine ⟨?_, ?_, ?_, ?_, ?_⟩
  · intro hp
    have : ¬ (p < 1 ∨ p > 3) := by omega
    simp [set_prio, this]
  · intro hp
    have : p < 1 ∨ p > 3 := by omega
    simp [set_prio, this]
  · by_cases h1 : cur = 1 <;> simp [dec_prio, h1] <;> omega
  · intro h1; simp [dec_prio, h1]
  · intro h2
    have h1 : ¬ cur = 1 := by omega
    simp [dec_prio, h1]

/-- C8 witness at concrete inputs. -/
theorem c8_prio_spec_witness :
    (1 ≤ 2) ∧ ((1:Int) ≤ 3 ∧ (3:Int) ≤ 3) ∧
    set_prio 2 3 = (0, 3) ∧ 1 ≤ dec_prio 2 :=
  ⟨by decide, by decide, (c8_prio_spec 2 3 (by decide)).1 ⟨by decide, by decide⟩,
    (c8_prio_spec 2 3 (by decide)).2.2.1⟩

/-! ## C5: the FCFS branch of scheduler() -/

/-- The FCFS selection loop of `scheduler()` (proc.c): walk the table
keeping the `RUNNABLE` slot with the smallest `ctime`; a later slot
replaces the current minimum only on a strictly smaller `ctime`, so ties
keep the earlier slot.  The accumulator carries (slot index, its ctime),
standing for the `min_prio_proc` pointer. -/
def fcfsStep (p : Proc) (i : Nat) (acc : Option (Nat × Nat)) :
    Option (Nat × Nat) :=
  if p.state = .RUNNABLE then
    match acc with
    | none => some (i, p.ctime)
    | some jc => if p.ctime < jc.2 then some (i, p.ctime) else some jc
  else acc

/-- The loop of the FCFS branch, one slot at a time. -/
def fcfsScan : List Proc → Nat → Option (Nat × Nat) → Option (Nat × Nat)
  | [], _, acc => acc
  | p :: rest, i, acc => fcfsScan rest (i + 1) (fcfsStep p i acc)

/-- The slot index the FCFS scheduler dispatches, `none` when no slot is
`RUNNABLE` (the round dispatches nothing). -/
def fcfsPick (tab : List Proc) : Option Nat := (fcfsScan tab 0 none).map Prod.fst

/-- Helper for C5: the scan returns `none` exactly when it started with no
current minimum and saw no `RUNNABLE` slot. -/
lemma fcfsScan_none_iff :
    ∀ (l : List Proc) (i0 : Nat) (acc : Option (Nat × Nat)),
      fcfsScan l i0 acc = none ↔
        (acc = none ∧ ∀ p ∈ l, p.state ≠ PState.RUNNABLE) := by
  intro l
  induction l with
  | nil => intro i0 acc; simp [fcfsScan]
  | cons p rest ih =>
      intro i0 acc
      by_cases hr : p.state = PState.RUNNABLE
      · have hacc : (fcfsStep p i0 acc).isSome = true := by
          cases acc with
          | none => simp [fcfsStep, hr]
          | some jc =>
              by_cases hlt : p.ctime < jc.2 <;> simp [fcfsStep, hr, hlt]
        rw [fcfsScan, ih]
        constructor
        · rintro ⟨h1, -⟩
          rw [h1] at hacc
          cases hacc
        · rintro ⟨-, hall⟩
          exact absurd hr (hall p (List.mem_cons_self _ _))
      · rw [fcfsScan, show fcfsStep p i0 acc = acc from by simp [fcfsStep, hr],
          ih]
        constructor
        · rintro ⟨h1, hall⟩
          exact ⟨h1, by
            intro q hq
            rcases List.mem_cons.mp hq with h | h
            · rw [h]; exact hr
            · exact hall q h⟩
        · rintro ⟨h1, hall⟩
          exact ⟨h1, fun q hq => hall q (List.mem_cons_of_mem _ hq)⟩

/-- Helper for C5: characterisation of a successful scan.  The result is a
lower bound on the `ctime` of every `RUNNABLE` slot of the scanned suffix,
and it is either the incoming accumulator unchanged or a slot of the
suffix that strictly beats the accumulator and every earlier `RUNNABLE`
slot of the suffix. -/
lemma fcfsScan_some_spec :
    ∀ (l : List Proc) (i0 : Nat) (acc : Option (Nat × Nat)) (j c : Nat),
      fcfsScan l i0 acc = some (j, c) →
      (∀ k q, l.get? k = some q → q.state = PState.RUNNABLE → c ≤ q.ctime) ∧
      (acc = some (j, c) ∨
        (∃ k q, l.get? k = some q ∧ q.state = PState.RUNNABLE ∧ q.ctime = c ∧
          j = i0 + k ∧
          (∀ k' q', k' < k → l.get? k' = some q' →
            q'.state = PState.RUNNABLE → c < q'.ctime) ∧
          (∀ jc0, acc = some jc0 → c < jc0.2))) := by
  intro l
  induction l with
  | nil =>
      intro i0 acc j c h
      refine ⟨by intro k q hk; simp at hk, Or.inl ?_⟩
      simpa [fcfsScan] using h
  | cons p rest ih =>
      intro i0 acc j c h
      rw [fcfsScan] at h
      by_cases hr : p.state = PState.RUNNABLE
      · rcases acc with _ | jc
        · simp only [fcfsStep, if_pos hr] at h
          rcases ih (i0 + 1) (some (i0, p.ctime)) j c h with ⟨hmin, hsrc⟩
          have hcp : c ≤ p.ctime := by
            rcases hsrc with heq | ⟨k, q, _, _, _, _, _, hstrict⟩
            · have : i0 = j ∧ p.ctime = c := by simpa using heq
              omega
            · exact le_of_lt (hstrict (i0, p.ctime) rfl)
          refine ⟨?_, Or.inr ?_⟩
          · intro k q hk hq
            cases k with
            | zero =>
                rw [List.get?_cons_zero] at hk
                cases hk
                exact hcp
            | succ k' =>
                exact hmin k' q (by simpa [List.get?_cons_succ] using hk) hq
          · rcases hsrc with heq | ⟨k, q, hget, hq, hct, hj, hearly, hstrict⟩
            · obtain ⟨hj0, hc0⟩ : i0 = j ∧ p.ctime = c := by simpa using heq
              refine ⟨0, p, List.get?_cons_zero, hr, hc0, by omega, ?_, ?_⟩
              · intro k' q' hk' _ _
                exact absurd hk' (Nat.not_lt_zero k')
              · intro jc0 hjc0
                exact Option.noConfusion hjc0
            · refine ⟨k + 1, q, by simpa [List.get?_cons_succ] using hget, hq,
                hct, by omega, ?_, ?_⟩
              · intro k' q' hk' hget' hq'
                cases k' with
                | zero =>
                    rw [List.get?_cons_zero] at hget'
                    cases hget'
                    exact hstrict (i0, p.ctime) rfl
                | succ k'' =>
                    exact hearly k'' q' (by omega)
                      (by simpa [List.get?_cons_succ] using hget') hq'
              · intro jc0 hjc0
                exact Option.noConfusion hjc0
        · simp only [fcfsStep, if_pos hr] at h
          by_cases hlt : p.ctime < jc.2
          · rw [if_pos hlt] at h
            rcases ih (i0 + 1) (some (i0, p.ctime)) j c h with ⟨hmin, hsrc⟩
            have hcp : c ≤ p.ctime := by
              rcases hsrc with heq | ⟨k, q, _, _, _, _, _, hstrict⟩
              · have : i0 = j ∧ p.ctime = c := by simpa using heq
                omega
              · exact le_of_lt (hstrict (i0, p.ctime) rfl)
            refine ⟨?_, Or.inr ?_⟩
            · intro k q hk hq
              cases k with
              | zero =>
                  rw [List.get?_cons_zero] at hk
                  cases hk
                  exact hcp
              | succ k' =>
                  exact hmin k' q (by simpa [List.get?_cons_succ] using hk) hq
            · rcases hsrc with heq | ⟨k, q, hget, hq, hct, hj, hearly, hstrict⟩
              · obtain ⟨hj0, hc0⟩ : i0 = j ∧ p.ctime = c := by simpa using heq
                refine ⟨0, p, List.get?_cons_zero, hr, hc0, by omega, ?_, ?_⟩
                · intro k' q' hk' _ _
                  exact absurd hk' (Nat.not_lt_zero k')
                · intro jc0 hjc0
                  cases hjc0
                  omega
              · refine ⟨k + 1, q, by simpa [List.get?_cons_succ] using hget, hq,
                  hct, by omega, ?_, ?_⟩
                · intro k' q' hk' hget' hq'
                  cases k' with
                  | zero =>
                      rw [List.get?_cons_zero] at hget'
                      cases hget'
                      exact hstrict (i0, p.ctime) rfl
                  | succ k'' =>
                      exact hearly k'' q' (by omega)
                        (by simpa [List.get?_cons_succ] using hget') hq'
                · intro jc0 hjc0
                  cases hjc0
                  have := hstrict (i0, p.ctime) rfl
                  omega
          · rw [if_neg hlt] at h
            rcases ih (i0 + 1) (some jc) j c h with ⟨hmin, hsrc⟩
            have hcjc : c ≤ jc.2 := by
              rcases hsrc with heq | ⟨k, q, _, _, _, _, _, hstrict⟩
              · have : jc.1 = j ∧ jc.2 = c := by
                  rcases jc with ⟨j1, c1⟩
                  simpa using heq
                omega
              · exact le_of_lt (hstrict jc rfl)
            refine ⟨?_, ?_⟩
            · intro k q hk hq
              cases k with
              | zero =>
                  rw [List.get?_cons_zero] at hk
                  cases hk
                  omega
              | succ k' =>
                  exact hmin k' q (by simpa [List.get?_cons_succ] using hk) hq
            · rcases hsrc with heq | ⟨k, q, hget, hq, hct, hj, hearly, hstrict⟩
              · exact Or.inl heq
              · refine Or.inr ⟨k + 1, q,
                  by simpa [List.get?_cons_succ] using hget, hq, hct,
                  by omega, ?_, ?_⟩
                · intro k' q' hk' hget' hq'
                  cases k' with
                  | zero =>
                      rw [List.get?_cons_zero] at hget'
                      cases hget'
                      have := hstrict jc rfl
                      omega
                  | succ k'' =>
                      exact hearly k'' q' (by omega)
                        (by simpa [List.get?_cons_succ] using hget') hq'
                · intro jc0 hjc0
                  cases hjc0
                  exact hstrict jc rfl
      · rw [show fcfsStep p i0 acc = acc from by simp [fcfsStep, hr]] at h
        rcases ih (i0 + 1) acc j c h with ⟨hmin, hsrc⟩
        refine ⟨?_, ?_⟩
        · intro k q hk hq
          cases k with
          | zero =>
              rw [List.get?_cons_zero] at hk
              cases hk
              exact absurd hq hr
          | succ k' =>
              exact hmin k' q (by simpa [List.get?_cons_succ] using hk) hq
        · rcases hsrc with heq | ⟨k, q, hget, hq, hct, hj, hearly, hstrict⟩
          · exact Or.inl heq
          · refine Or.inr ⟨k + 1, q,
              by simpa [List.get?_cons_succ] using hget, hq, hct,
              by omega, ?_, hstrict⟩
            intro k' q' hk' hget' hq'
            cases k' with
            | zero =>
                rw [List.get?_cons_zero] at hget'
                cases hget'
                exact absurd hq' hr
            | succ k'' =>
                exact hearly k'' q' (by omega)
                  (by simpa [List.get?_cons_succ] using hget') hq'

/-- C5: under FCFS the scheduler round picks the `RUNNABLE` slot with the
smallest `ctime` among all `RUNNABLE` slots, taking the lowest-index slot
on ties, and dispatches nothing when no slot is `RUNNABLE`; consequently,
for processes created at strictly increasing ctimes the earliest-created
runnable process is always picked first. -/
theorem c5_fcfs_spec (tab : List Proc) :
    (fcfsPick tab = none ↔ ∀ p ∈ tab, p.state ≠ PState.RUNNABLE) ∧
    (∀ i, fcfsPick tab = some i →
      ∃ p, tab.get? i = some p ∧ p.state = PState.RUNNABLE ∧
        ∀ j q, tab.get? j = some q → q.state = PState.RUNNABLE →
          p.ctime ≤ q.ctime ∧ (q.ctime = p.ctime → i ≤ j)) := by
  constructor
  · rw [fcfsPick, Option.map_eq_none', fcfsScan_none_iff]
    simp
  · intro i hi
    rw [fcfsPick] at hi
    rcases Option.map_eq_some'.mp hi with ⟨⟨j, c⟩, hscan, hfst⟩
    rcases fcfsScan_some_spec tab 0 none j c hscan with ⟨hmin, hsrc⟩
    rcases hsrc with heq | ⟨k, q, hget, hq, hct, hj, hearly, -⟩
    · exact Option.noConfusion heq
    · have hik : i = k := by simpa using hfst.symm.trans hj
      subst hik
      refine ⟨q, hget, hq, ?_⟩
      intro j' q' hget' hq'
      refine ⟨by rw [hct]; exact hmin j' q' hget' hq', ?_⟩
      intro htie
      by_contra hlt
      have hj'i : j' < i := by omega
      have := hearly j' q' hj'i hget' hq'
      omega

/-- C5 witness: on a table holding runnable slots with ctimes 10 and 3 and
an unused slot, FCFS picks index 1 (ctime 3), and it satisfies the
minimality properties. -/
theorem c5_fcfs_spec_witness :
    fcfsPick [{ state := .RUNNABLE, ctime := 10 },
              { state := .RUNNABLE, ctime := 3 }, ({} : Proc)] = some 1 ∧
    (∃ p, ([{ state := .RUNNABLE, ctime := 10 },
            { state := .RUNNABLE, ctime := 3 }, ({} : Proc)] : List Proc).get? 1
            = some p ∧ p.state = PState.RUNNABLE ∧
      ∀ j q, ([{ state := .RUNNABLE, ctime := 10 },
               { state := .RUNNABLE, ctime := 3 },
               ({} : Proc)] : List Proc).get? j = some q →
        q.state = PState.RUNNABLE →
        p.ctime ≤ q.ctime ∧ (q.ctime = p.ctime → 1 ≤ j)) :=
  ⟨rfl,
   (c5_fcfs_spec [{ state := .RUNNABLE, ctime := 10 },
                  { state := .RUNNABLE, ctime := 3 }, ({} : Proc)]).2 1 rfl⟩

/-! ## C3: findmaxprio (SML and DML; the two build variants are
byte-identical) -/

/-- The inner `while (i != NPROC)` scan of `findmaxprio` at one priority
level: probe slots `(cursor + i) % NPROC` for `i = 0, 1, ...` looking for a
`RUNNABLE` slot of exactly this priority; on a hit return the slot index
together with the updated rotating cursor `(cursor + 1 + i) % NPROC`.
`fuel` counts the probes left (`NPROC - i`); a table entry missing from
the list (out of range) matches nothing. -/
def scanLevelAux (tab : List Proc) (cursor prio : Nat) :
    Nat → Nat → Option (Nat × Nat)
  | 0, _ => none
  | fuel + 1, i =>
      match tab.get? ((cursor + i) % NPROC) with
      | some p =>
          if p.state = .RUNNABLE ∧ p.priority = prio then
            some ((cursor + i) % NPROC, (cursor + (1 + i)) % NPROC)
          else scanLevelAux tab cursor prio fuel (i + 1)
      | none => scanLevelAux tab cursor prio fuel (i + 1)

/-- One full scan (`i` from 0 while `i != NPROC`). -/
def scanLevel (tab : List Proc) (cursor prio : Nat) : Option (Nat × Nat) :=
  scanLevelAux tab cursor prio NPROC 0

/-- Result of `findmaxprio`: the returned slot (`none` for the C function's
`return 0`), the three rotating cursors `*i1 *i2 *i3` and the in/out
parameter `*priority` on return. -/
structure FMP where
  found : Option Nat
  i1 : Nat
  i2 : Nat
  i3 : Nat
  priority : Nat
deriving DecidableEq, Repr

/-- `findmaxprio(i1, i2, i3, priority)` (proc.c, identical under `SML` and
`DML`): scan at the current priority using that priority's rotating
cursor; on a miss at priority 1 set `*priority = 3` and return 0, on a
miss at a higher priority decrement `*priority` and `goto again`.  The
recursion is on the priority, which the C loop strictly decreases until
it reaches 1; the scheduler always calls with `*priority = 3`, so the
priority-0 case is unreachable (C's unsigned decrement would wrap there).
-/
def findmaxprio (tab : List Proc) (i1 i2 i3 : Nat) : Nat → FMP
  | 0 => ⟨none, i1, i2, i3, 0⟩
  | pm + 1 =>
      if pm + 1 = 1 then
        match scanLevel tab i1 1 with
        | some r => ⟨some r.1, r.2, i2, i3, 1⟩
        | none => ⟨none, i1, i2, i3, 3⟩
      else if pm + 1 = 2 then
        match scanLevel tab i2 2 with
        | some r => ⟨some r.1, i1, r.2, i3, 2⟩
        | none => findmaxprio tab i1 i2 i3 pm
      else
        match scanLevel tab i3 (pm + 1) with
        | some r => ⟨some r.1, i1, i2, r.2, pm + 1⟩
        | none => findmaxprio tab i1 i2 i3 pm

/-- Modelled from the claim's wording (not from the code): "when the scan
at priority level 1 finds no Runnable slot, the priority cursor wraps back
to 3 and the function loops again via `goto again` (rather than
returning)".  Each round scans levels 3, 2, 1 and a level-1 miss restarts
the round; `fuel` bounds the number of rounds and `none` means the claimed
control flow is still looping after `fuel` rounds (it never returns while
the table stays free of runnable slots). -/
def findmaxprioClaim (tab : List Proc) (i1 i2 i3 : Nat) : Nat → Option FMP
  | 0 => none
  | fuel + 1 =>
      match scanLevel tab i3 3 with
      | some r => some ⟨some r.1, i1, i2, r.2, 3⟩
      | none =>
          match scanLevel tab i2 2 with
          | some r => some ⟨some r.1, i1, r.2, i3, 2⟩
          | none =>
              match scanLevel tab i1 1 with
              | some r => some ⟨some r.1, r.2, i2, i3, 1⟩
              | none => findmaxprioClaim tab i1 i2 i3 fuel

/-- A table of NPROC fresh (UNUSED) slots: no slot is runnable. -/
def tabU : List Proc := List.replicate NPROC {}

/-- C3 counterexample: on a table with no runnable slot the code's
`findmaxprio` RETURNS 0 (with `*priority` left wrapped to 3 and the
cursors unchanged), whereas the claimed control flow — wrap to 3 and loop
again via `goto again` instead of returning — never returns on such a
table (still looping after 5 goto-again rounds, and by induction after any
number).  So "the function loops again ... rather than returning" is false
of the code. -/
theorem c3_findmaxprio_cx :
    findmaxprio tabU 0 0 0 3 = ⟨none, 0, 0, 0, 3⟩ ∧
    findmaxprioClaim tabU 0 0 0 5 = none := by
  exact ⟨by decide, by decide⟩

/-- C3 (amended): when the scans at priorities 3 and 2 miss, `findmaxprio`
falls through to priority 1 via `goto again`; when the scan at priority 1
then also finds no Runnable slot, `*priority` is set back to 3 but the
function RETURNS 0 (cursors unchanged) instead of looping again.  Each
call still rescans starting from the highest priority only because the
scheduler passes `priority = 3` afresh on every call. -/
theorem c3_findmaxprio_level1 (tab : List Proc) (i1 i2 i3 : Nat)
    (h3 : scanLevel tab i3 3 = none) :
    findmaxprio tab i1 i2 i3 3 = findmaxprio tab i1 i2 i3 2 ∧
    (scanLevel tab i2 2 = none → scanLevel tab i1 1 = none →
      findmaxprio tab i1 i2 i3 3 = ⟨none, i1, i2, i3, 3⟩) := by
  have u3 : findmaxprio tab i1 i2 i3 3 =
      (match scanLevel tab i3 3 with
       | some r => ⟨some r.1, i1, i2, r.2, 3⟩
       | none => findmaxprio tab i1 i2 i3 2) := rfl
  have u2 : findmaxprio tab i1 i2 i3 2 =
      (match scanLevel tab i2 2 with
       | some r => ⟨some r.1, i1, r.2, i3, 2⟩
       | none => findmaxprio tab i1 i2 i3 1) := rfl
  have u1 : findmaxprio tab i1 i2 i3 1 =
      (match scanLevel tab i1 1 with
       | some r => ⟨some r.1, r.2, i2, i3, 1⟩
       | none => ⟨none, i1, i2, i3, 3⟩) := rfl
  constructor
  · rw [u3, h3]
  · intro h2 h1
    rw [u3, h3]
    show findmaxprio tab i1 i2 i3 2 = _
    rw [u2, h2]
    show findmaxprio tab i1 i2 i3 1 = _
    rw [u1, h1]

/-- C3 amended-claim witness on the all-unused table. -/
theorem c3_findmaxprio_level1_witness :
    scanLevel tabU 0 3 = none ∧
    findmaxprio tabU 0 0 0 3 = ⟨none, 0, 0, 0, 3⟩ :=
  ⟨by decide, (c3_findmaxprio_level1 tabU 0 0 0 (by decide)).2
    (by decide) (by decide)⟩

/-! ## C10: the swap queues (enqueue / dequeue) -/

/-- `struct swapqueue` (proc.c): ring buffer of process references (slot
indices here) with `front`, `rear`, `size`; `queue` maps a ring index to
the stored reference.  `userinit` initialises `front = 0`,
`rear = NPROC - 1`, `size = 0`. -/
structure Swapqueue where
  front : Nat := 0
  size : Nat := 0
  rear : Nat := NPROC - 1
  queue : Nat → Nat := fun _ => 0

/-- `enqueue(sq, np)` (proc.c): silently drop the request when the queue
already holds NPROC elements, else advance `rear` one step around the ring
and store the reference there. -/
def enqueue (sq : Swapqueue) (np : Nat) : Swapqueue :=
  if sq.size = NPROC then sq
  else
    { sq with rear := (sq.rear + 1) % NPROC,
              queue := fun j => if j = (sq.rear + 1) % NPROC then np
                                else sq.queue j,
              size := sq.size + 1 }

/-- `dequeue(sq)` (proc.c): return 0 and change nothing on an empty queue;
else take the element at `front`, advance `front`, decrement `size`, and
when the queue becomes empty reset `front = 0`, `rear = NPROC - 1`. -/
def dequeue (sq : Swapqueue) : Nat × Swapqueue :=
  if sq.size = 0 then (0, sq)
  else
    let next := sq.queue sq.front
    if sq.size - 1 = 0 then
      (next, { sq with front := 0, size := 0, rear := NPROC - 1 })
    else
      (next, { sq with front := (sq.front + 1) % NPROC, size := sq.size - 1 })

/-- Ring-buffer well-formedness: indices in range, size bounded by NPROC,
and `rear` one step before the slot following the last element. -/
def queueInv (sq : Swapqueue) : Prop :=
  sq.front < NPROC ∧ sq.rear < NPROC ∧ sq.size ≤ NPROC ∧
    (sq.rear + 1) % NPROC = (sq.front + sq.size) % NPROC

/-- The abstract FIFO content of the ring: the `size` stored elements in
order, starting at `front`. -/
def absQ (sq : Swapqueue) : List Nat :=
  (List.range sq.size).map (fun k => sq.queue ((sq.front + k) % NPROC))

/-- Two numbers less than a window `n` apart with equal residues are
equal. -/
lemma mod_window {a b n : Nat} (hab : a ≤ b) (hlt : b - a < n)
    (h : a % n = b % n) : a = b := by
  have hd : n ∣ b - a := (Nat.modEq_iff_dvd' hab).mp h
  have hz : b - a = 0 := Nat.eq_zero_of_dvd_of_lt hd hlt
  omega

lemma queueInv_enqueue (sq : Swapqueue) (x : Nat) (h : queueInv sq) :
    queueInv (enqueue sq x) := by
  obtain ⟨h1, h2, h3, h4⟩ := h
  by_cases hs : sq.size = NPROC
  · simpa [enqueue, hs] using ⟨h1, h2, h3, h4⟩
  · simp only [NPROC] at *
    simp [enqueue, queueInv, hs, NPROC]
    omega

lemma queueInv_dequeue (sq : Swapqueue) (h : queueInv sq) :
    queueInv (dequeue sq).2 := by
  obtain ⟨h1, h2, h3, h4⟩ := h
  by_cases hs : sq.size = 0
  · simpa [dequeue, hs] using ⟨h1, h2, h3, h4⟩
  · simp only [NPROC] at *
    by_cases hs1 : sq.size - 1 = 0
    · simp [dequeue, queueInv, hs, hs1, NPROC]
      try omega
    · simp [dequeue, queueInv, hs, hs1, NPROC]
      try omega

lemma absQ_enqueue (sq : Swapqueue) (x : Nat) (h : queueInv sq)
    (hlt : sq.size < NPROC) : absQ (enqueue sq x) = absQ sq ++ [x] := by
  obtain ⟨h1, h2, h3, h4⟩ := h
  simp only [NPROC] at *
  have hs : ¬ sq.size = 64 := by omega
  simp only [absQ, enqueue, NPROC, hs, if_false, List.range_succ,
    List.map_append, List.map_cons, List.map_nil]
  congr 1
  · apply List.map_congr_left
    intro k hk
    have hk' : k < sq.size := List.mem_range.mp hk
    have hne : ¬ (sq.front + k) % 64 = (sq.rear + 1) % 64 := by omega
    simp [hne]
  · have he : (sq.front + sq.size) % 64 = (sq.rear + 1) % 64 := h4.symm
    simp [he]

lemma dequeue_head (sq : Swapqueue) (h : queueInv sq) (hpos : 0 < sq.size) :
    (dequeue sq).1 = (absQ sq).headD 0 := by
  obtain ⟨h1, h2, h3, h4⟩ := h
  simp only [NPROC] at *
  obtain ⟨s, hsz⟩ : ∃ s, sq.size = s + 1 := ⟨sq.size - 1, by omega⟩
  have hf : sq.front % 64 = sq.front := by omega
  by_cases hs0 : s = 0
  · subst hs0
    simp [dequeue, absQ, hsz, List.range_succ_eq_map, NPROC, hf]
  · simp [dequeue, absQ, hsz, hs0, List.range_succ_eq_map, NPROC, hf]

lemma absQ_dequeue (sq : Swapqueue) (h : queueInv sq) (hpos : 0 < sq.size) :
    absQ (dequeue sq).2 = (absQ sq).tail := by
  obtain ⟨h1, h2, h3, h4⟩ := h
  simp only [NPROC] at *
  obtain ⟨s, hsz⟩ : ∃ s, sq.size = s + 1 := ⟨sq.size - 1, by omega⟩
  by_cases hs0 : s = 0
  · subst hs0
    simp [dequeue, absQ, hsz, List.range_succ_eq_map, NPROC]
  · simp only [dequeue, absQ, hsz, NPROC, Nat.add_sub_cancel]
    rw [if_neg (by omega : ¬ s + 1 = 0), if_neg hs0]
    dsimp only
    rw [List.range_succ_eq_map]
    simp only [List.map_cons, List.tail_cons, List.map_map]
    apply List.map_congr_left
    intro k hk
    simp only [Function.comp_apply, Nat.succ_eq_add_one]
    have he : ((sq.front + 1) % 64 + k) % 64 = (sq.front + (k + 1)) % 64 := by
      omega
    rw [he]

/-- C10: the swap queues preserve `0 ≤ size ≤ NPROC`; `enqueue` on a full
queue is a silent no-op; `dequeue` on an empty queue returns 0 and changes
nothing, and resets `front = 0`, `rear = NPROC - 1` when removing the last
element; and the ring behaves as a FIFO: `enqueue` appends to the abstract
queue content and `dequeue` returns its head and keeps its tail, so
elements leave in exactly the order they entered. -/
theorem c10_swapqueue_fifo (sq : Swapqueue) (x : Nat) (h : queueInv sq) :
    queueInv (enqueue sq x) ∧ queueInv (dequeue sq).2 ∧
    (sq.size = NPROC → enqueue sq x = sq) ∧
    (sq.size = 0 → dequeue sq = (0, sq)) ∧
    (sq.size = 1 →
      (dequeue sq).2.front = 0 ∧ (dequeue sq).2.rear = NPROC - 1 ∧
      (dequeue sq).2.size = 0) ∧
    (sq.size < NPROC → absQ (enqueue sq x) = absQ sq ++ [x]) ∧
    (0 < sq.size →
      (dequeue sq).1 = (absQ sq).headD 0 ∧
      absQ (dequeue sq).2 = (absQ sq).tail) := by
  refine ⟨queueInv_enqueue sq x h, queueInv_dequeue sq h, ?_, ?_, ?_, ?_, ?_⟩
  · intro hs
    simp [enqueue, hs]
  · intro hs
    simp [dequeue, hs]
  · intro hs
    simp [dequeue, hs]
  · intro hlt
    exact absQ_enqueue sq x h hlt
  · intro hpos
    exact ⟨dequeue_head sq h hpos, absQ_dequeue sq h hpos⟩

/-- C10 witness: the freshly initialised queue satisfies the invariant and
enqueueing on it appends to the abstract content. -/
theorem c10_swapqueue_fifo_witness :
    queueInv ({} : Swapqueue) ∧ ({} : Swapqueue).size < NPROC ∧
    absQ (enqueue ({} : Swapqueue) 5) = absQ ({} : Swapqueue) ++ [5] :=
  ⟨by simp [queueInv, NPROC], by simp [NPROC],
    (c10_swapqueue_fifo ({} : Swapqueue) 5
        (by simp [queueInv, NPROC])).2.2.2.2.2.1 (by simp [NPROC])⟩

/-! ## C6: chooseVictimAndEvict -/

/-- The exclusion test at the head of the scan loop of
`chooseVictimAndEvict(pid)` (proc.c): skip slots that are UNUSED, EMBRYO
or RUNNING, slots with `pid < 5` (the initial system processes and the
swap workers) and the requester itself. -/
def evictExcluded (reqpid : Nat) (p : Proc) : Prop :=
  p.state = .UNUSED ∨ p.state = .EMBRYO ∨ p.state = .RUNNING ∨
    p.pid < 5 ∨ p.pid = reqpid

instance (reqpid : Nat) (p : Proc) : Decidable (evictExcluded reqpid p) := by
  unfold evictExcluded
  infer_instance

/-- A bucketed candidate: the owning slot's index, the page's virtual
address and its page-table entry. -/
structure Vic where
  idx : Nat
  va : Nat
  pte : Nat
deriving DecidableEq, Repr

/-- The aging-class bucket of a PTE: `(( *pte) & 96) >> 5` remapped so
that classes 1 and 2 swap (`idx = 3 - idx` when `0 < idx < 3`). -/
def victimIdx (pte : Nat) : Nat :=
  let idx := (pte &&& 96) >>> 5
  if 0 < idx ∧ idx < 3 then 3 - idx else idx

/-- The page addresses the inner loop of `chooseVictimAndEvict` walks:
`i = PGSIZE; i < sz; i += PGSIZE`. -/
def evictVAs (sz : Nat) : List Nat := List.range' PGSIZE ((sz - 1) / PGSIZE) PGSIZE

/-- The inner page loop for one eligible slot `p` at table index `i`:
bucket every present user PTE, keeping one representative per bucket
(later pages overwrite earlier ones in the same bucket). -/
def bucketSlot (i : Nat) (p : Proc) (vs : List (Option Vic)) :
    List (Option Vic) :=
  (evictVAs p.sz).foldl
    (fun vs va =>
      if p.pgdir va &&& PTE_U = 0 ∨ p.pgdir va &&& PTE_P = 0 then vs
      else vs.set (victimIdx (p.pgdir va)) (some ⟨i, va, p.pgdir va⟩))
    vs

/-- The outer slot loop of `chooseVictimAndEvict`: `i` is the index of the
head of `l` in the full table. -/
def collectVictimsGo (reqpid : Nat) :
    List Proc → Nat → List (Option Vic) → List (Option Vic)
  | [], _, vs => vs
  | p :: rest, i, vs =>
      collectVictimsGo reqpid rest (i + 1)
        (if evictExcluded reqpid p then vs else bucketSlot i p vs)

/-- The four victim buckets after the scan (`struct victim victims[4]`,
initialised to null). -/
def collectVictims (tab : List Proc) (reqpid : Nat) : List (Option Vic) :=
  collectVictimsGo reqpid tab 0 [none, none, none, none]

/-- The PTE rewrite of the eviction: clear `PTE_P`, set the swapped bit
(bit 7): `*pte = (*pte & ~PTE_P) | (1 << 7)`. -/
def evictPTE (pte : Nat) : Nat := ((pte >>> 1) <<< 1) ||| 128

/-- The table after evicting victim `v`: the owner's page-table entry for
`v.va` is rewritten; the owner's `state`/`chan` are saved, temporarily
overwritten with `SLEEPING`/null during the disk write, and restored, so
their net value is unchanged (the freed frame and `lcr3` are outside the
model). -/
def applyEvict (tab : List Proc) (v : Vic) : List Proc :=
  match tab.get? v.idx with
  | none => tab
  | some p =>
      tab.set v.idx
        { p with pgdir := fun a => if a = v.va then evictPTE (p.pgdir v.va)
                                   else p.pgdir a }

/-- `chooseVictimAndEvict(pid)` (proc.c): scan and bucket, then evict the
representative of the lowest-numbered non-empty bucket, returning 1; when
every bucket is empty return 0 and change nothing. -/
def chooseVictimAndEvict (tab : List Proc) (reqpid : Nat) : Nat × List Proc :=
  match (collectVictims tab reqpid).findSome? id with
  | some v => (1, applyEvict tab v)
  | none => (0, tab)

/-- Generic preservation of a predicate over the bucket list by a foldl. -/
lemma foldl_buckets_inv {β : Type} (g : List (Option Vic) → β → List (Option Vic))
    (Q : Option Vic → Prop)
    (hg : ∀ vs b, (∀ o ∈ vs, Q o) → ∀ o ∈ g vs b, Q o) :
    ∀ (L : List β) (vs), (∀ o ∈ vs, Q o) → ∀ o ∈ L.foldl g vs, Q o := by
  intro L
  induction L with
  | nil => intro vs hvs; exact hvs
  | cons b L ih => intro vs hvs; exact ih (g vs b) (hg vs b hvs)

/-- Every bucket entry produced by `bucketSlot` is either an old entry or
a page of the scanned slot. -/
lemma bucketSlot_inv (Q : Option Vic → Prop) (i : Nat) (p : Proc)
    (hq : ∀ va pte, Q (some ⟨i, va, pte⟩)) :
    ∀ vs, (∀ o ∈ vs, Q o) → ∀ o ∈ bucketSlot i p vs, Q o := by
  intro vs hvs
  refine foldl_buckets_inv _ Q ?_ (evictVAs p.sz) vs hvs
  intro vs' va hvs' o ho
  by_cases hc : p.pgdir va &&& PTE_U = 0 ∨ p.pgdir va &&& PTE_P = 0
  · rw [if_pos hc] at ho
    exact hvs' o ho
  · rw [if_neg hc] at ho
    rcases List.mem_or_eq_of_mem_set ho with hmem | rfl
    · exact hvs' o hmem
    · exact hq va (p.pgdir va)

/-- `findSome? id` only returns members of the list. -/
lemma findSome_id_mem {v : Vic} :
    ∀ (l : List (Option Vic)), l.findSome? id = some v → some v ∈ l := by
  intro l
  induction l with
  | nil => intro h; cases h
  | cons o l ih =>
      intro h
      rw [List.findSome?_cons] at h
      cases o with
      | none => exact List.mem_cons_of_mem _ (ih h)
      | some w =>
          simp only [id] at h
          cases h
          exact List.mem_cons_self _ _

/-- Invariant of the outer slot loop: every filled bucket names a
non-excluded slot of the full table. -/
lemma collectVictimsGo_inv (tab : List Proc) (reqpid : Nat) :
    ∀ (l : List Proc) (i : Nat) (vs : List (Option Vic)),
      (∀ k q, l.get? k = some q → tab.get? (i + k) = some q) →
      (∀ o ∈ vs, ∀ w : Vic, o = some w →
        ∃ p, tab.get? w.idx = some p ∧ ¬ evictExcluded reqpid p) →
      ∀ o ∈ collectVictimsGo reqpid l i vs, ∀ w : Vic, o = some w →
        ∃ p, tab.get? w.idx = some p ∧ ¬ evictExcluded reqpid p := by
  intro l
  induction l with
  | nil => intro i vs _ hvs; exact hvs
  | cons p rest ih =>
      intro i vs hlink hvs
      rw [collectVictimsGo]
      refine ih (i + 1) _ ?_ ?_
      · intro k q hk
        have := hlink (k + 1) q (by simpa [List.get?_cons_succ] using hk)
        simpa [Nat.add_assoc, Nat.add_comm 1 k] using this
      · by_cases hex : evictExcluded reqpid p
        · rw [if_pos hex]
          exact hvs
        · rw [if_neg hex]
          have hp : tab.get? i = some p := by
            simpa using hlink 0 p List.get?_cons_zero
          refine bucketSlot_inv _ i p ?_ vs hvs
          intro va pte w hw
          cases hw
          exact ⟨p, hp, hex⟩

/-- C6: a victim chosen by `chooseVictimAndEvict(pid)` is always a page of
a slot that is not UNUSED, not EMBRYO, not RUNNING, whose pid is at least
5, and which is not the requester: only such slots are ever bucketed, so
only their pages can be evicted. -/
theorem c6_evict_exclusions (tab : List Proc) (reqpid : Nat) (v : Vic)
    (h : (collectVictims tab reqpid).findSome? id = some v) :
    ∃ p, tab.get? v.idx = some p ∧ p.state ≠ .UNUSED ∧ p.state ≠ .EMBRYO ∧
      p.state ≠ .RUNNING ∧ 5 ≤ p.pid ∧ p.pid ≠ reqpid := by
  have hmem := findSome_id_mem _ h
  have := collectVictimsGo_inv tab reqpid tab 0 [none, none, none, none]
    (by intro k q hk; simpa using hk)
    (by intro o ho w hw
        simp at ho
        subst ho
        cases hw)
    (some v) hmem v rfl
  rcases this with ⟨p, hp, hex⟩
  rw [evictExcluded] at hex
  push_neg at hex
  exact ⟨p, hp, hex.1, hex.2.1, hex.2.2.1, by omega, hex.2.2.2.2⟩

/-- C6 witness: a concrete table with one eligible sleeping slot of pid 6
owning a present user page; the requester has pid 7. -/
theorem c6_evict_exclusions_witness :
    (collectVictims
        [{ pid := 6, state := .SLEEPING, sz := 2 * PGSIZE,
           pgdir := fun _ => 5 }] 7).findSome? id = some ⟨0, 4096, 5⟩ ∧
    (∃ p, ([{ pid := 6, state := .SLEEPING, sz := 2 * PGSIZE,
              pgdir := fun _ => 5 }] : List Proc).get? (0 : Nat) = some p ∧
      p.state ≠ .UNUSED ∧ p.state ≠ .EMBRYO ∧ p.state ≠ .RUNNING ∧
      5 ≤ p.pid ∧ p.pid ≠ 7) :=
  ⟨by decide,
    c6_evict_exclusions
      [{ pid := 6, state := .SLEEPING, sz := 2 * PGSIZE, pgdir := fun _ => 5 }]
      7 ⟨0, 4096, 5⟩ (by decide)⟩

/-! ## C2: the swap-out worker's service loop -/

/-- `wakeup1(chan)` (proc.c): make every slot sleeping on `chan` runnable.
(Under the `DML` build it additionally resets the woken slot's priority to
3; the swap build modelled here uses the default policy.) -/
def wakeup1 (tab : List Proc) (chan : Nat) : List Proc :=
  tab.map fun p =>
    if p.state = .SLEEPING ∧ p.chan = chan then { p with state := .RUNNABLE }
    else p

/-- The channel id of `swap_out_queue.reqchan` (userinit assigns the fixed
address 0xA8000). -/
def reqchanSO : Nat := 0xA8000

/-- State touched by the swap-out worker: the process table, the swap-out
queue and the page-file fd budget counter. -/
structure SOState where
  tab : List Proc
  soq : Swapqueue
  flimit : Nat

/-- One iteration of the swap-out worker's inner `while (swap_out_queue.size)`
loop (proc.c, `swapoutprocess`).  If the queue is empty the loop exits (a
no-op step here); if `flimit >= NOFILE` the worker wakes the requesters
and yields — one spin of that busy-wait changes nothing but the woken
states.  Otherwise it dequeues a requester `p`, runs
`chooseVictimAndEvict(p->pid)`, on failure wakes the requesters and yields
once — and then in either case falls through to `p->satisfied = 1`, which
the code performs unconditionally after the `if`. -/
def swapoutStep (st : SOState) : SOState :=
  if st.soq.size = 0 then st
  else if NOFILE ≤ st.flimit then { st with tab := wakeup1 st.tab reqchanSO }
  else
    let d := dequeue st.soq
    let reqpid := (st.tab.getD d.1 default).pid
    let ev := chooseVictimAndEvict st.tab reqpid
    let tab1 := if ev.1 = 0 then wakeup1 ev.2 reqchanSO else ev.2
    let tab2 := tab1.set d.1 { (tab1.getD d.1 default) with satisfied := 1 }
    { tab := tab2, soq := d.2, flimit := st.flimit }

/-- The failing input for C2: the queue holds one requester (slot 0,
pid 6, sleeping on the request channel, `satisfied = 0`); no other slot
exists, so no victim is eligible (the requester itself is excluded);
`flimit = 2 < NOFILE`. -/
def c2FailSt : SOState :=
  { tab := [{ pid := 6, state := .SLEEPING, chan := reqchanSO }],
    soq := { front := 0, size := 1, rear := 0, queue := fun _ => 0 },
    flimit := 2 }

/-- C2: the claim "`satisfied` is set to true only if
`chooseVictimAndEvict(p.pid)` found and evicted a victim; on failure the
worker degrades to yield-and-retry and never signals completion falsely"
is contradicted by the code: after `if(!chooseVictimAndEvict(p->pid))
{ ...yield... }` the statement `p->satisfied = 1` runs unconditionally, so
on the state above — where eviction returns 0 because no eligible victim
exists — the dequeued requester is still marked satisfied.  The code's own
comment ("When frame found set satified to true") documents the intended
conditional behaviour, so this is a bug in the code. -/
theorem c2_satisfied_without_victim :
    (chooseVictimAndEvict c2FailSt.tab 6).1 = 0 ∧
    ((swapoutStep c2FailSt).tab.getD 0 default).satisfied = 1 := by
  exact ⟨by decide, by decide⟩

/-! ## C9: get_name -/

/-- The first digit loop of `get_name` (proc.c): emit decimal digits least
significant first while the value is nonzero.  `fuel` bounds the division
chain (`n` itself suffices since `n / 10 < n`). -/
def digitsRevGo : Nat → Nat → List Char
  | 0, _ => []
  | fuel + 1, n =>
      if n = 0 then [] else Char.ofNat (48 + n % 10) :: digitsRevGo fuel (n / 10)

/-- Least-significant-first decimal digits, as `while (pid) { name[i++] =
'0' + pid % 10; pid /= 10; }` produces them. -/
def digitsRev (n : Nat) : List Char := digitsRevGo n n

/-- One iteration of the in-place swap loops of `get_name`: exchange the
characters at positions `j` and `k`. -/
def swap2 (l : List Char) (j k : Nat) : List Char :=
  (l.set j (l.getD k ' ')).set k (l.getD j ' ')

/-- The in-place reversal loops of `get_name` (`for(j, k = ...; j < k; j++,
k--) swap`), with explicit fuel (`k - j` iterations suffice, the gap
shrinks by 2 per swap). -/
def swapRangeGo : Nat → List Char → Nat → Nat → List Char
  | 0, l, _, _ => l
  | fuel + 1, l, j, k =>
      if j < k then swapRangeGo fuel (swap2 l j k) (j + 1) (k - 1) else l

/-- Reverse the segment `[j, k]` of `l` in place, as both swap loops of
`get_name` do (the first runs `j < mi/2` swapping `j` with `mi-1-j`, which
is the same iteration). -/
def swapRange (l : List Char) (j k : Nat) : List Char := swapRangeGo (k - j) l j k

/-- The `for (j...) if (name[j] == '_') { mi = j; break; }` search of
`get_name`. -/
def findUnderscore : List Char → Nat → Option Nat
  | [], _ => none
  | c :: rest, j => if c = '_' then some j else findUnderscore rest (j + 1)

/-- `get_name(pid, addr, name)` (proc.c): build the name as reversed pid
digits, `'_'`, reversed addr digits (a literal `'0'` when `addr == 0`),
`".swp"`, then locate the `'_'` before the `'.'` and un-reverse the two
digit runs in place.  The `none` branch mirrors C's `mi = -1` fall-through
(its first loop is empty and its second starts at `j = 0`); it is
unreachable since `'_'` is always written. -/
def get_name (pid addr : Nat) : List Char :=
  let built := digitsRev pid ++ '_' ::
    ((if addr = 0 then ['0'] else digitsRev addr) ++ ['.', 's', 'w', 'p'])
  let i := built.length - 4
  match findUnderscore (built.take i) 0 with
  | some mi => swapRange (swapRange built 0 (mi - 1)) (mi + 1) (i - 1)
  | none => swapRange built 0 (i - 1)

/-- The standard most-significant-digit-first decimal rendering, written
from the claim: `Nat.digits` (least significant first) reversed and
mapped to ASCII, with 0 rendered as "0". -/
def decRender (n : Nat) : List Char :=
  if n = 0 then ['0']
  else ((Nat.digits 10 n).map (fun d => Char.ofNat (48 + d))).reverse

lemma digitsRevGo_eq :
    ∀ (fuel n : Nat), n ≤ fuel →
      digitsRevGo fuel n = (Nat.digits 10 n).map (fun d => Char.ofNat (48 + d)) := by
  intro fuel
  induction fuel with
  | zero =>
      intro n hn
      have : n = 0 := by omega
      subst this
      simp [digitsRevGo]
  | succ fuel ih =>
      intro n hn
      by_cases h0 : n = 0
      · subst h0
        simp [digitsRevGo]
      · have hpos : 0 < n := by omega
        rw [digitsRevGo, if_neg h0, Nat.digits_def' (by norm_num : (1:Nat) < 10) hpos,
          List.map_cons, ih (n / 10) (by
          have := Nat.div_lt_self hpos (by norm_num : 1 < 10)
          omega)]

lemma digitsRev_eq (n : Nat) :
    digitsRev n = (Nat.digits 10 n).map (fun d => Char.ofNat (48 + d)) :=
  digitsRevGo_eq n n le_rfl

lemma digitsRev_no_underscore (n : Nat) : ∀ c ∈ digitsRev n, c ≠ '_' := by
  intro c hc
  rw [digitsRev_eq] at hc
  rcases List.mem_map.mp hc with ⟨d, hd, rfl⟩
  have hdlt : d < 10 := Nat.digits_lt_base (by norm_num) hd
  interval_cases d <;> decide

lemma digitsRev_ne_nil (n : Nat) (h : 1 ≤ n) : digitsRev n ≠ [] := by
  rw [digitsRev_eq]
  simp [Nat.digits_ne_nil_iff_ne_zero]
  omega

lemma findUnderscore_append :
    ∀ (l rest : List Char) (j : Nat), (∀ c ∈ l, c ≠ '_') →
      findUnderscore (l ++ '_' :: rest) j = some (j + l.length) := by
  intro l
  induction l with
  | nil => intro rest j _; simp [findUnderscore]
  | cons c l ih =>
      intro rest j hall
      have hc : ¬ c = '_' := hall c (List.mem_cons_self _ _)
      rw [List.cons_append, findUnderscore, if_neg hc,
        ih rest (j + 1) (fun x hx => hall x (List.mem_cons_of_mem _ hx))]
      congr 1
      simp
      omega

lemma getD_append_len (C L : List Char) (n : Nat) (d : Char) :
    (C ++ L).getD (C.length + n) d = L.getD n d := by
  induction C with
  | nil => simp
  | cons c C ih => simpa [Nat.succ_add] using ih

lemma set_append_len (C L : List Char) (n : Nat) (v : Char) :
    (C ++ L).set (C.length + n) v = C ++ L.set n v := by
  induction C with
  | nil => simp
  | cons c C ih => simp [Nat.succ_add, ih]

/-- One swap moves the first and last characters of the middle segment
across each other. -/
lemma swap2_append (C M E : List Char) (x z : Char) :
    swap2 (C ++ (x :: (M ++ [z])) ++ E) C.length (C.length + (M.length + 1)) =
      C ++ (z :: (M ++ [x])) ++ E := by
  have hx : (C ++ (x :: (M ++ [z])) ++ E).getD C.length ' ' = x := by
    rw [List.append_assoc]
    have := getD_append_len C ((x :: (M ++ [z])) ++ E) 0 ' '
    simpa using this
  have hz : (C ++ (x :: (M ++ [z])) ++ E).getD (C.length + (M.length + 1)) ' '
      = z := by
    rw [List.append_assoc,
      getD_append_len C ((x :: (M ++ [z])) ++ E) (M.length + 1) ' ',
      List.cons_append, List.getD_cons_succ, List.append_assoc]
    have := getD_append_len M ([z] ++ E) 0 ' '
    simpa using this
  rw [swap2, hx, hz, List.append_assoc]
  have h0 := set_append_len C ((x :: (M ++ [z])) ++ E) 0 z
  rw [Nat.add_zero] at h0
  rw [h0, List.cons_append, List.set_cons_zero]
  rw [set_append_len C (z :: ((M ++ [z]) ++ E)) (M.length + 1) x,
    List.set_cons_succ, List.append_assoc]
  have h1 := set_append_len M ([z] ++ E) 0 x
  rw [Nat.add_zero] at h1
  rw [h1]
  simp

lemma swapRangeGo_append :
    ∀ (fuel : Nat) (D C E : List Char), D.length ≤ 2 * fuel + 1 →
      swapRangeGo fuel (C ++ D ++ E) C.length (C.length + D.length - 1) =
        C ++ D.reverse ++ E := by
  intro fuel
  induction fuel with
  | zero =>
      intro D C E hD
      match D, hD with
      | [], _ => simp [swapRangeGo]
      | [x], _ => simp [swapRangeGo]
  | succ fuel ih =>
      intro D C E hD
      match D, hD with
      | [], _ =>
          rw [swapRangeGo,
            if_neg (by simp only [List.length_nil, Nat.add_zero]; omega)]
          simp
      | [x], _ =>
          rw [swapRangeGo,
            if_neg (by simp only [List.length_cons, List.length_nil]; omega)]
          simp
      | x :: y :: T, hD =>
          have hyT : (y :: T) ≠ [] := by simp
          obtain ⟨M, z, hMz⟩ : ∃ M z, y :: T = M ++ [z] :=
            ⟨(y :: T).dropLast, (y :: T).getLast hyT,
              (List.dropLast_append_getLast hyT).symm⟩
          have hxyz : x :: y :: T = x :: (M ++ [z]) := by rw [hMz]
          rw [hxyz] at hD ⊢
          have hlen2 : (x :: (M ++ [z])).length = M.length + 2 := by simp
          rw [hlen2] at hD ⊢
          rw [swapRangeGo, if_pos (by omega)]
          have hk : C.length + (M.length + 2) - 1 = C.length + (M.length + 1) := by
            omega
          rw [hk, swap2_append C M E x z]
          have ihM := ih M (C ++ [z]) ([x] ++ E) (by omega)
          rw [show (C ++ [z]).length = C.length + 1 from by simp] at ihM
          rw [show (C ++ [z]) ++ M ++ ([x] ++ E) = C ++ (z :: (M ++ [x])) ++ E
            from by simp] at ihM
          rw [show C.length + 1 + M.length - 1 = C.length + (M.length + 1) - 1
            from by omega] at ihM
          rw [show C.length + (M.length + 1) - 1 = C.length + M.length
            from by omega] at ihM ⊢
          rw [show C.length + 1 = C.length + 1 from rfl] at ihM
          rw [ihM]
          simp

lemma swapRange_append (C D E : List Char) :
    swapRange (C ++ D ++ E) C.length (C.length + D.length - 1) =
      C ++ D.reverse ++ E := by
  rw [swapRange]
  exact swapRangeGo_append (C.length + D.length - 1 - C.length) D C E (by omega)

/-- C9: for `pid ≥ 1` and any `vpage`, `get_name` produces exactly
`"<pid>_<vpage>.swp"` with the standard most-significant-digit-first
decimal renderings (and `vpage = 0` rendered as "0"). -/
theorem c9_get_name_spec (pid vpage : Nat) (h : 1 ≤ pid) :
    get_name pid vpage =
      decRender pid ++ '_' :: (decRender vpage ++ ['.', 's', 'w', 'p']) := by
  simp only [get_name]
  set Dp := digitsRev pid with hDpdef
  set Da := (if vpage = 0 then ['0'] else digitsRev vpage) with hDadef
  have hDpne : Dp ≠ [] := by
    rw [hDpdef]
    exact digitsRev_ne_nil pid h
  have hDane : Da ≠ [] := by
    rw [hDadef]
    by_cases h0 : vpage = 0
    · simp [h0]
    · rw [if_neg h0]
      exact digitsRev_ne_nil vpage (by omega)
  have hd1 : 1 ≤ Dp.length := List.length_pos.mpr hDpne
  have ha1 : 1 ≤ Da.length := List.length_pos.mpr hDane
  have hlenb : (Dp ++ '_' :: (Da ++ ['.', 's', 'w', 'p'])).length - 4 =
      Dp.length + 1 + Da.length := by
    simp
    omega
  rw [hlenb]
  have htake : (Dp ++ '_' :: (Da ++ ['.', 's', 'w', 'p'])).take
      (Dp.length + 1 + Da.length) = Dp ++ '_' :: Da := by
    rw [show Dp ++ '_' :: (Da ++ ['.', 's', 'w', 'p']) =
      (Dp ++ '_' :: Da) ++ ['.', 's', 'w', 'p'] from by simp]
    exact List.take_left' (by simp; omega)
  have hno : ∀ c ∈ Dp, c ≠ '_' := by
    rw [hDpdef]
    exact digitsRev_no_underscore pid
  rw [htake, findUnderscore_append Dp Da 0 hno, Nat.zero_add]
  show swapRange (swapRange (Dp ++ '_' :: (Da ++ ['.', 's', 'w', 'p'])) 0
      (Dp.length - 1)) (Dp.length + 1) (Dp.length + 1 + Da.length - 1) = _
  have h1 : swapRange (Dp ++ '_' :: (Da ++ ['.', 's', 'w', 'p'])) 0
      (Dp.length - 1) = Dp.reverse ++ '_' :: (Da ++ ['.', 's', 'w', 'p']) := by
    have := swapRange_append [] Dp ('_' :: (Da ++ ['.', 's', 'w', 'p']))
    simpa using this
  rw [h1]
  have h2 : swapRange (Dp.reverse ++ '_' :: (Da ++ ['.', 's', 'w', 'p']))
      (Dp.length + 1) (Dp.length + 1 + Da.length - 1) =
      Dp.reverse ++ '_' :: (Da.reverse ++ ['.', 's', 'w', 'p']) := by
    have h := swapRange_append (Dp.reverse ++ ['_']) Da ['.', 's', 'w', 'p']
    rw [show (Dp.reverse ++ ['_']).length = Dp.length + 1 from by simp] at h
    rw [show (Dp.reverse ++ ['_']) ++ Da ++ ['.', 's', 'w', 'p'] =
      Dp.reverse ++ '_' :: (Da ++ ['.', 's', 'w', 'p']) from by simp] at h
    rw [show (Dp.reverse ++ ['_']) ++ Da.reverse ++ ['.', 's', 'w', 'p'] =
      Dp.reverse ++ '_' :: (Da.reverse ++ ['.', 's', 'w', 'p']) from by simp] at h
    exact h
  rw [h2]
  have hp : Dp.reverse = decRender pid := by
    rw [hDpdef, digitsRev_eq, decRender, if_neg (by omega)]
  have hv : Da.reverse = decRender vpage := by
    rw [hDadef]
    by_cases h0 : vpage = 0
    · simp [h0, decRender]
    · rw [if_neg h0, digitsRev_eq, decRender, if_neg h0]
  rw [hp, hv]

/-- C9 witness at pid 12, vpage 0. -/
theorem c9_get_name_spec_witness :
    (1 ≤ 12) ∧
    get_name 12 0 = decRender 12 ++ '_' :: (decRender 0 ++ ['.', 's', 'w', 'p']) :=
  ⟨by decide, c9_get_name_spec 12 0 (by decide)⟩

/-! ## C7: sys_draw (sysproc.c) -/

set_option maxRecDepth 10000

/-- The ASCII-art image embedded in `sys_draw` (sysproc.c), exactly the
concatenated C string literal. -/
def google : String :=
  "          ,((                                                                          \n" ++
  "      ((((((((((((((                                              ***                  \n" ++
  "    ((((                                                          ***                  \n" ++
  "  (((                      *//*          /((/          /((/      ***     *//*          \n" ++
  "  ((((       (((((((((  *//////////   ,((((((((((    (((((((((((  ***  //////////      \n" ++
  "  (((             ((( *//,      ///..(((      (((* (((      (((  *** ///  */////*      \n" ++
  "  *(((           /((( ///*      ///*(((/      ((((.(((      (((  *** //////            \n" ++
  "    ((((((   ((((((    ////.  *////  ((((/  *((((  ((((*   ((((  ***  ///*   ///*      \n" ++
  "        ((((((((          //////        ((((((        (((((.(((  ***    //////         \n" ++
  "                                                    (((     .(((                       \n" ++
  "                                                      ((((((((,                        \n"

/-- The bytes of the C array `char google[]`: the characters of the
literal followed by the implicit terminating NUL; `sizeof(google)` counts
all of them. -/
def googleBytes : List Nat := google.data.map Char.toNat ++ [0]

/-- `uint google_size = sizeof(google)`. -/
def google_size : Nat := googleBytes.length

/-- The copy loop of `sys_draw`: `while (google[index] != 0)
buffer[index] = google[index], index++;` followed by
`buffer[index] = 0` — the bytes written to the start of the buffer. -/
def copyUntilZero : List Nat → List Nat
  | [] => [0]
  | b :: rest => if b = 0 then [0] else b :: copyUntilZero rest

/-- `sys_draw(buf, size)` (sysproc.c) after argument fetch succeeds (the
claim assumes a valid user buffer): return -1 leaving the buffer untouched
when `size < google_size`, else copy the image (with its NUL) over the
start of the buffer and return `google_size`. -/
def sys_draw (size : Int) (buf : List Nat) : Int × List Nat :=
  if size < (google_size : Int) then (-1, buf)
  else
    ((google_size : Int),
      copyUntilZero googleBytes ++ buf.drop (copyUntilZero googleBytes).length)

/-- The copy loop writes exactly the image bytes: the only zero byte of
`googleBytes` is its final NUL. -/
lemma copyUntilZero_googleBytes : copyUntilZero googleBytes = googleBytes := by
  decide

/-- C7: with a valid buffer, `draw(buf, size)` with `size ≥ image size`
returns the image size and makes `buf[0..image_size)` equal to the image
bytes (leaving the rest of the buffer unchanged); with `size < image
size` it returns -1 and the buffer is unchanged. -/
theorem c7_draw_spec (size : Int) (buf : List Nat) :
    ((google_size : Int) ≤ size → google_size ≤ buf.length →
      (sys_draw size buf).1 = google_size ∧
      (sys_draw size buf).2.take google_size = googleBytes ∧
      (sys_draw size buf).2.drop google_size = buf.drop google_size) ∧
    (size < (google_size : Int) → sys_draw size buf = (-1, buf)) := by
  constructor
  · intro hsz _
    have hns : ¬ size < (google_size : Int) := by omega
    rw [sys_draw, if_neg hns, copyUntilZero_googleBytes]
    refine ⟨rfl, ?_, ?_⟩
    · show (googleBytes ++ buf.drop googleBytes.length).take google_size = _
      rw [google_size]
      exact List.take_left googleBytes _
    · show (googleBytes ++ buf.drop googleBytes.length).drop google_size = _
      rw [google_size]
      exact List.drop_left googleBytes _
  · intro hlt
    rw [sys_draw, if_pos hlt]

/-- C7 witness: `draw` into a 1000-byte buffer of sevens with size
argument 2000. -/
theorem c7_draw_spec_witness :
    ((google_size : Int) ≤ 2000 ∧
      google_size ≤ (List.replicate 1000 7).length) ∧
    ((sys_draw 2000 (List.replicate 1000 7)).1 = google_size ∧
      (sys_draw 2000 (List.replicate 1000 7)).2.take google_size = googleBytes ∧
      (sys_draw 2000 (List.replicate 1000 7)).2.drop google_size =
        (List.replicate 1000 7).drop google_size) :=
  ⟨⟨by decide, by decide⟩,
    (c7_draw_spec 2000 (List.replicate 1000 7)).1 (by decide) (by decide)⟩
